import Mathlib

/-!
# Verification of the lease-renewing queue consumption engine

Shallow embedding of `vendor/github.com/twitsprout/tools/queue`
(`consumer.go`, `poll_message.go`): the data model, the per-message
lease (`pollMessage`) timer lifecycle, the poller, the worker pool and
the `Consume` orchestrator, together with proofs of the behavioural
claims about them.

Durations are modelled as integer nanosecond counts (Go's
`time.Duration` is an `int64` nanosecond count).  Go `context.Context`
values are modelled by the set of cancellation sources whose firing
makes the context done.  The floating-point arithmetic in
`registerTimers` (`0.9 * float64(visibilityTimeout)`) is modelled by an
exact IEEE-754 binary64 round-to-nearest-even function over `ℚ`,
restricted to the normal range (all values involved are far inside it).
-/

namespace QueueEngine

/-- A `time.Duration`: an integer number of nanoseconds (`int64` in Go). -/
abbrev Duration := Int

/-- One second, in nanoseconds (`time.Second`). -/
def second : Duration := 1000000000

/-- Errors surfaced by the Go code: the root context's cancellation error
(`context.Canceled` / `context.DeadlineExceeded`) or a backend error. -/
inductive GoError where
  | contextCanceled
  | deadlineExceeded
  | backend (code : Nat)
deriving DecidableEq, Repr

/-! ## IEEE-754 binary64 rounding over exact fractions

`registerTimers` computes `time.Duration(0.9 * float64(vt))` and
`time.Duration(0.5 * float64(vt))`.  We model `float64` values in the
normal range by the exact rationals they denote, represented as
unreduced integer fractions (so that every operation reduces in the
kernel), and the rounding of an exact product to the nearest
representable `float64` (ties to even) by `roundF64`. -/

/-- An exact, not necessarily reduced fraction `n / d` with `d > 0`. -/
structure Frac where
  n : ℤ
  d : ℤ
deriving DecidableEq, Repr

namespace Frac

def ofInt (z : ℤ) : Frac := ⟨z, 1⟩

def mul (a b : Frac) : Frac := ⟨a.n * b.n, a.d * b.d⟩

/-- Value-level comparison (valid because denominators are positive). -/
def le (a b : Frac) : Prop := a.n * b.d ≤ b.n * a.d

def lt (a b : Frac) : Prop := a.n * b.d < b.n * a.d

instance : DecidablePred (fun p : Frac × Frac => Frac.le p.1 p.2) :=
  fun _ => inferInstanceAs (Decidable (_ ≤ _))

def leB (a b : Frac) : Bool := decide (a.n * b.d ≤ b.n * a.d)

def ltB (a b : Frac) : Bool := decide (a.n * b.d < b.n * a.d)

/-- Floor of the value of the fraction. -/
def floor (a : Frac) : ℤ := Int.fdiv a.n a.d

def half : Frac := ⟨1, 2⟩

end Frac

/-- Fueled base-2 logarithm on naturals: greatest `e` with `2^e ≤ n`
(for `n ≥ 1` and enough fuel; 64 suffices for any `int64` value). -/
def log2fuel : Nat → Nat → Nat
  | 0, _ => 0
  | fuel + 1, n => if n < 2 then 0 else log2fuel fuel (n / 2) + 1

/-- For `0 < q < 1`, the least `k ≥ 1` with `1 ≤ q * 2^k` (fueled; 1200
covers the whole binary64 normal range). -/
def negExpFuel : Nat → Frac → Nat
  | 0, _ => 0
  | fuel + 1, q => if q.leB ⟨1, 1⟩ = false then 0
      else negExpFuel fuel ⟨q.n * 2, q.d⟩ + 1

/-- Binary exponent of a positive fraction: the `e` with `2^e ≤ q < 2^(e+1)`. -/
def binExp (q : Frac) : ℤ :=
  if Frac.leB ⟨1, 1⟩ q then (log2fuel 64 q.floor.toNat : ℤ)
  else -(negExpFuel 1200 q : ℤ)

/-- Round a nonnegative rational to the nearest IEEE-754 binary64 value
(round to nearest, ties to even), assuming the result lies in the normal
range.  Every value this development applies it to is far inside that
range. -/
def roundF64 (q : Frac) : Frac :=
  if q.leB ⟨0, 1⟩ then ⟨0, 1⟩
  else
    let e : ℤ := binExp q
    -- scale q so that it lies in [2^52, 2^53)
    let s : Frac := if 52 - e ≥ 0 then ⟨q.n * 2 ^ (52 - e).toNat, q.d⟩
      else ⟨q.n, q.d * 2 ^ (e - 52).toNat⟩
    let fl : ℤ := s.floor
    -- the fractional part of s is (s.n - fl * s.d) / s.d; compare it to 1/2
    let fr : Frac := ⟨s.n - fl * s.d, s.d⟩
    let m : ℤ :=
      if fr.ltB Frac.half then fl
      else if Frac.half.ltB fr then fl + 1
      else if fl % 2 = 0 then fl else fl + 1
    if 52 - e ≥ 0 then ⟨m, 2 ^ (52 - e).toNat⟩ else ⟨m * 2 ^ (e - 52).toNat, 1⟩

/-- The `float64` value nearest to an exact rational Go constant. -/
def f64ofFrac (q : Frac) : Frac := roundF64 q

/-- The `float64` value of a Go `int64` (`float64(vt)`): nearest binary64. -/
def f64ofInt (z : ℤ) : Frac := roundF64 (Frac.ofInt z)

/-- IEEE-754 binary64 multiplication of two representable values:
round the exact product. -/
def f64mul (a b : Frac) : Frac := roundF64 (a.mul b)

/-- Go's `time.Duration(f)` conversion from `float64`: truncation toward
zero; for the nonnegative values arising here this is the floor. -/
def durOfF64 (q : Frac) : Duration := q.floor

/-- `expiryDur` from `registerTimers` (poll_message.go:50-51):
`time.Duration(expiryPct * float64(visibilityTimeout))` with
`expiryPct = 0.9`. -/
def expiryDurNs (vt : Duration) : Duration :=
  durOfF64 (f64mul (f64ofFrac ⟨9, 10⟩) (f64ofInt vt))

/-- `extendDur` from `registerTimers` (poll_message.go:57-58):
`time.Duration(extendPct * float64(visibilityTimeout))` with
`extendPct = 0.5`. -/
def extendDurNs (vt : Duration) : Duration :=
  durOfF64 (f64mul (f64ofFrac ⟨1, 2⟩) (f64ofInt vt))

/-! ## Data model (`message.go`) -/

/-- `queue.Message` (message.go): a single message received from a queue. -/
structure Message where
  attempts : ℤ
  body : List Nat
  id : String
  receiptHandle : String
deriving DecidableEq, Repr

/-- `queue.GetMessagesRequest` (message.go). -/
structure GetMessagesRequest where
  messageCount : ℤ
  queueID : String
  visibilityTimeout : Duration
  waitTime : Duration
deriving DecidableEq, Repr

/-- `queue.AckMessageRequest` (message.go). -/
structure AckMessageRequest where
  queueID : String
  receiptHandle : String
deriving DecidableEq, Repr

/-- `queue.UpdateVisibilityRequest` (message.go). -/
structure UpdateVisibilityRequest where
  queueID : String
  receiptHandle : String
  visibilityTimeout : Duration
deriving DecidableEq, Repr

/-- `queue.HandleResult` (consumer.go:232-234). -/
structure HandleResult where
  shouldAck : Bool
deriving DecidableEq, Repr

/-- `queue.NewHandleResult` (consumer.go:238-240): the zero value, meaning
"do not acknowledge". -/
def NewHandleResult : HandleResult := ⟨false⟩

/-- `HandleResult.AckMessage` (consumer.go:244-247). -/
def HandleResult.ackMessage (r : HandleResult) (b : Bool) : HandleResult :=
  { r with shouldAck := b }

/-- `queue.shouldAckMessage` (consumer.go:249-251). -/
def shouldAckMessage (r : HandleResult) : Bool := r.shouldAck

/-- The configuration fields of `queue.Consumer` (consumer.go:35-43).
`errHandlerPresent` records whether `errHandler` is non-nil; the queue
and clock collaborators are modelled by oracles supplied per operation. -/
structure Consumer where
  errHandlerPresent : Bool
  numWorkers : Nat
  queueID : String
  visibilityTimeout : Duration
  waitTime : Duration
deriving DecidableEq, Repr

/-- `queue.maxDuration` (consumer.go:257-262). -/
def maxDuration (a b : Duration) : Duration := if a > b then a else b

/-! ## Contexts

A Go `context.Context` is modelled by the list of cancellation sources
whose firing makes it done: `context.Background()` has none,
`context.WithCancel`/`WithTimeout` add one fresh source on top of the
parent's.  `Ctx.done` evaluates a context against the set of sources
that have fired. -/

/-- A cancellation source: one of the caller's root-context sources, the
`cancel` func created for lease `i` in `pollMessages` (consumer.go:135),
or the cancel/timeout of a per-request `WithTimeout` context. -/
inductive CancelSrc where
  | rootCause (i : Nat)
  | leaseCancel (i : Nat)
  | reqTimeout (i : Nat)
deriving DecidableEq, Repr

/-- A context, represented by its cancellation sources. -/
structure Ctx where
  sources : List CancelSrc
deriving DecidableEq, Repr

/-- `context.Background()`: never done. -/
def Ctx.background : Ctx := ⟨[]⟩

/-- `context.WithCancel(parent)`: done when the parent is done or the new
cancel func has been invoked. -/
def Ctx.withCancel (parent : Ctx) (s : CancelSrc) : Ctx := ⟨s :: parent.sources⟩

/-- `context.WithTimeout(parent, d)`: done when the parent is done or the
deadline has passed (or its cancel was invoked). -/
def Ctx.withTimeout (parent : Ctx) (s : CancelSrc) : Ctx := ⟨s :: parent.sources⟩

/-- Whether the context is done, given which sources have fired. -/
def Ctx.done (events : CancelSrc → Bool) (c : Ctx) : Bool := c.sources.any events

/-- The context stored in the `pollMessage` for lease `i`:
`ctx, cancel := context.WithCancel(context.Background())`
(consumer.go:135).  Its only cancellation source is the lease's own
cancel func — it is *not* derived from the root context. -/
def leaseCtx (i : Nat) : Ctx := Ctx.withCancel Ctx.background (.leaseCancel i)

/-- Modelled from the spec: the lease context as §5/§9 of the design
describe it — "a derived/child scoped context" composing the *root*
context and the lease's own cancellation, so that it is done when either
parent is.  This definition follows the spec's words, for comparison
with `leaseCtx`, which follows the code. -/
def leaseCtxSpec (root : Ctx) (i : Nat) : Ctx := Ctx.withCancel root (.leaseCancel i)

/-- The context used for one `AckMessage` call (consumer.go:210-218):
`context.WithTimeout(ctx, 10s)` where `ctx` is the worker's root
context. -/
def ackCtx (root : Ctx) (t : Nat) : Ctx := Ctx.withTimeout root (.reqTimeout t)

/-! ## Lease timer lifecycle (`poll_message.go`)

The mutable state of a `pollMessage`: whether its context has been
cancelled, and the two optional armed timers.  The mutex `pm.mu`
serialises `registerTimers`, `cleanup` and `unsafeCleanupTimers`, so
their concurrent invocations are modelled by sequential composition. -/

/-- What an armed `time.AfterFunc` timer will do when it fires. -/
inductive TimerAction where
  /-- `func() { pm.cancel() }` (poll_message.go:52). -/
  | cancelCtx
  /-- `pm.extend` (poll_message.go:59). -/
  | extendVis
deriving DecidableEq, Repr

/-- An armed timer: its delay and its callback. -/
structure ArmedTimer where
  delay : Duration
  action : TimerAction
deriving DecidableEq, Repr

/-- The mutable state of a `pollMessage` (poll_message.go:18-27). -/
structure PMState where
  ctxCancelled : Bool
  expiryTimer : Option ArmedTimer
  extendTimer : Option ArmedTimer
deriving DecidableEq, Repr

/-- Timer resource releases performed by `unsafeCleanupTimers`. -/
inductive TEv where
  | stopExpiry
  | stopExtend
deriving DecidableEq, Repr

/-- `pollMessage.unsafeCleanupTimers` (poll_message.go:108-117): stop and
nil out whichever of the two timers is armed, returning the `Stop` calls
made. -/
def unsafeCleanupTimers (s : PMState) : PMState × List TEv :=
  (⟨s.ctxCancelled, none, none⟩,
    (if s.expiryTimer.isSome then [TEv.stopExpiry] else []) ++
      (if s.extendTimer.isSome then [TEv.stopExtend] else []))

/-- `pollMessage.registerTimers` (poll_message.go:30-60): no-op if the
visibility timeout is nonpositive; otherwise, under the mutex, no-op if
the lease context is already done, else stop any existing timers and arm
the expiry timer (cancels the context after `0.9 × vt`) and the extend
timer (runs `pm.extend` after `0.5 × vt`). -/
def registerTimers (vt : Duration) (s : PMState) : PMState × List TEv :=
  if vt ≤ 0 then (s, [])
  else if s.ctxCancelled then (s, [])
  else
    let (s1, evs) := unsafeCleanupTimers s
    ({ s1 with
        expiryTimer := some ⟨expiryDurNs vt, .cancelCtx⟩,
        extendTimer := some ⟨extendDurNs vt, .extendVis⟩ }, evs)

/-- `pollMessage.cleanup` (poll_message.go:101-106): `pm.cancel()`, then,
under the mutex, `unsafeCleanupTimers`. -/
def cleanup (s : PMState) : PMState × List TEv :=
  unsafeCleanupTimers { s with ctxCancelled := true }

/-- The effect of the expiry timer firing: its callback is
`func() { pm.cancel() }` (poll_message.go:52). -/
def fireExpiry (s : PMState) : PMState := { s with ctxCancelled := true }

/-! ## Observable events

Each boundary interaction or lifecycle action of the engine is recorded
as one event; the embeddings of the Go functions return the list of
events they perform, in order. -/

/-- One observable action of the engine. -/
inductive Ev where
  /-- `queue.GetMessages` called with this request under this
  request-scoped timeout (consumer.go:172-182). -/
  | getMessages (req : GetMessagesRequest) (timeout : Duration)
  /-- `queue.UpdateVisibility` called with this request under this
  request-scoped timeout (poll_message.go:90-99). -/
  | updateVisibility (req : UpdateVisibilityRequest) (timeout : Duration)
  /-- `queue.AckMessage` called with this context (already carrying the
  request timeout) and request (consumer.go:210-218). -/
  | ackMessage (ctx : Ctx) (req : AckMessageRequest) (timeout : Duration)
  /-- `h.Handle(pm.ctx, pm.msg)` invoked (consumer.go:222). -/
  | handleCall (ctx : Ctx) (msg : Message)
  /-- `pm.cleanup()` invoked for lease `i`. -/
  | leaseCleanup (i : Nat)
  /-- `pm.registerTimers()` invoked for lease `i` (consumer.go:142). -/
  | armTimers (i : Nat)
  /-- lease `i` sent on the dispatch channel (consumer.go:154). -/
  | dispatch (i : Nat)
  /-- the error callback `c.errHandler` invoked with this error. -/
  | errRoute (e : GoError)
  /-- a sleep for this duration (`time.After` in poll_message.go:85). -/
  | sleep (d : Duration)
deriving DecidableEq, Repr

/-- `Consumer.handleError` (consumer.go:225-229): forward a non-nil error
to the callback when one is installed, otherwise do nothing. -/
def handleErrorEvs (c : Consumer) (e : Option GoError) : List Ev :=
  match e with
  | some err => if c.errHandlerPresent then [Ev.errRoute err] else []
  | none => []

/-- The `UpdateVisibility` call made by `pollMessage.updateVisibility`
(poll_message.go:90-99): request built from the consumer's queue ID, the
message's receipt handle and the configured visibility timeout, under a
10-second request timeout. -/
def updateVisibilityEv (c : Consumer) (m : Message) : Ev :=
  .updateVisibility ⟨c.queueID, m.receiptHandle, c.visibilityTimeout⟩ (10 * second)

/-! ## The extend retry loop (`poll_message.go:62-88`) -/

/-- Oracle for one run of `pollMessage.extend`: the result of each
successive `updateVisibility` call (indexed by the number of prior
failures), whether the lease context was observed done at the `select`
reached after the `k`-th failure, and whether it is done when the
deferred `registerTimers` finally runs. -/
structure ExtendEnv where
  visResult : Nat → Option GoError
  ctxDoneAt : Nat → Bool
  ctxDoneFinal : Bool

/-- How a run of the extend retry loop ended. -/
inductive LoopExit where
  /-- `updateVisibility` returned nil. -/
  | success
  /-- the `select` observed `pm.ctx.Done()`. -/
  | cancelled
  /-- the supplied fuel ran out (the loop is still running). -/
  | fuelOut
deriving DecidableEq, Repr

/-- The retry loop body of `pollMessage.extend` (poll_message.go:74-87),
with `retries` the current value of the Go `retries` counter: call
`updateVisibility`; on success return; on error route it through
`handleError`, increment `retries`, and either return if the context is
done or sleep `retries × 1s` and loop. -/
def extendLoop (c : Consumer) (m : Message) (env : ExtendEnv) :
    Nat → Nat → List Ev × LoopExit
  | 0, _ => ([], .fuelOut)
  | fuel + 1, retries =>
    match env.visResult retries with
    | none => ([updateVisibilityEv c m], .success)
    | some e =>
      let r := retries + 1
      if env.ctxDoneAt r then
        (updateVisibilityEv c m :: handleErrorEvs c (some e), .cancelled)
      else
        (updateVisibilityEv c m :: (handleErrorEvs c (some e) ++
          (Ev.sleep ((r : ℤ) * second) :: (extendLoop c m env fuel r).1)),
          (extendLoop c m env fuel r).2)

/-- How a run of `pollMessage.extend` ended. -/
inductive ExtendExit where
  /-- returned immediately: the context was already done. -/
  | noop
  | success
  | cancelled
  | fuelOut
deriving DecidableEq, Repr

/-- `pollMessage.extend` (poll_message.go:62-88): `defer registerTimers`;
return at once if the lease context is already done; otherwise run the
retry loop.  The deferred `registerTimers` runs on every return path,
against the context state at that moment (`env.ctxDoneFinal`; when the
loop exited because the context was observed done, that observation is
permanent, so the final state is recorded as cancelled).  Returns the
events, the final timer state (`none` while still running), and how the
run ended. -/
def extendRun (c : Consumer) (m : Message) (env : ExtendEnv) (fuel : Nat)
    (s : PMState) : List Ev × Option PMState × ExtendExit :=
  if s.ctxCancelled then
    ([], some (registerTimers c.visibilityTimeout s).1, .noop)
  else
    match (extendLoop c m env fuel 0).2 with
    | .success =>
      ((extendLoop c m env fuel 0).1,
        some (registerTimers c.visibilityTimeout
          { s with ctxCancelled := env.ctxDoneFinal }).1, .success)
    | .cancelled =>
      ((extendLoop c m env fuel 0).1,
        some (registerTimers c.visibilityTimeout
          { s with ctxCancelled := true }).1, .cancelled)
    | .fuelOut => ((extendLoop c m env fuel 0).1, none, .fuelOut)

/-! ## The worker path (`consumer.go:186-223`) -/

/-- A lease as handed from the poller to a worker: the `pollMessage`
pointer's identity (`leaseId`), its context and its message. -/
structure PollMsg where
  leaseId : Nat
  ctx : Ctx
  msg : Message
deriving DecidableEq, Repr

/-- `queue.handleMsg` (consumer.go:220-223): invoke the handler with the
lease's context and message, then (deferred) `pm.cleanup()`. -/
def handleMsgRun (h : Ctx → Message → HandleResult) (pm : PollMsg) :
    List Ev × HandleResult :=
  ([Ev.handleCall pm.ctx pm.msg, Ev.leaseCleanup pm.leaseId], h pm.ctx pm.msg)

/-- `Consumer.ackMessage` (consumer.go:210-218): derive a 10-second
timeout context from the supplied (root) context and call
`queue.AckMessage`; `t` identifies the fresh timeout source and
`ackResult` is the queue's reply. -/
def ackMessageRun (c : Consumer) (root : Ctx) (t : Nat)
    (receiptHandle : String) (ackResult : Option GoError) :
    List Ev × Option GoError :=
  ([Ev.ackMessage (ackCtx root t) ⟨c.queueID, receiptHandle⟩ (10 * second)],
    ackResult)

/-- `Consumer.consumeMessage` (consumer.go:202-208): run `handleMsg`; if
the result says not to ack, return nil; otherwise ack the message with
the root-derived context. -/
def consumeMessageRun (c : Consumer) (root : Ctx)
    (h : Ctx → Message → HandleResult) (pm : PollMsg) (t : Nat)
    (ackResult : Option GoError) : List Ev × Option GoError :=
  if shouldAckMessage (handleMsgRun h pm).2 then
    ((handleMsgRun h pm).1 ++
        (ackMessageRun c root t pm.msg.receiptHandle ackResult).1,
      (ackMessageRun c root t pm.msg.receiptHandle ackResult).2)
  else ((handleMsgRun h pm).1, none)

/-- `Consumer.startWorker` (consumer.go:186-198): receive leases until
the channel closes; for each, run `consumeMessage` and route its error
through `handleError`; an error never breaks the loop.  `pms` is the
sequence of leases this worker receives, `k` numbers the per-message
timeout sources, and `ackRes` gives the queue's reply per message. -/
def startWorkerRun (c : Consumer) (root : Ctx)
    (h : Ctx → Message → HandleResult) (ackRes : Nat → Option GoError) :
    List PollMsg → Nat → List Ev
  | [], _ => []
  | pm :: rest, k =>
    (consumeMessageRun c root h pm k (ackRes k)).1 ++
      handleErrorEvs c (consumeMessageRun c root h pm k (ackRes k)).2 ++
      startWorkerRun c root h ackRes rest (k + 1)

/-! ## The poller (`consumer.go:110-183`) -/

/-- `Consumer.getMessages` (consumer.go:165-183): the fetch request and
the request-scoped timeout `max(30s, waitTime + 1s)` under which it is
issued. -/
def getMessagesReq (c : Consumer) : GetMessagesRequest :=
  ⟨(c.numWorkers : ℤ), c.queueID, c.visibilityTimeout, c.waitTime⟩

/-- The fetch request timeout (consumer.go:171). -/
def fetchTimeout (c : Consumer) : Duration :=
  maxDuration (30 * second) (c.waitTime + second)

/-- The `GetMessages` call event issued by `getMessages`. -/
def getMessagesEv (c : Consumer) : Ev :=
  .getMessages (getMessagesReq c) (fetchTimeout c)

/-- `Consumer.pollMessages` (consumer.go:125-163): fetch a batch; on an
error or an empty batch return the error.  Otherwise build a
`pollMessage` per message — each with a fresh context and
`registerTimers` called at once — and only then dispatch each one,
cleaning it up instead if the root context is done at its `select`.
`fetch` is the queue's reply, `dispCancel i` tells whether the `select`
for message `i` took the `ctx.Done()` branch, `ctxDoneEnd` whether the
final `select` does, and `rootErr` is the root context's `ctx.Err()`. -/
def pollMessagesRun (c : Consumer) (fetch : Option GoError × List Message)
    (dispCancel : Nat → Bool) (ctxDoneEnd : Bool) (rootErr : GoError) :
    List Ev × Option GoError :=
  let base := [getMessagesEv c]
  if fetch.1.isSome || fetch.2.isEmpty then (base, fetch.1)
  else
    let n := fetch.2.length
    let armEvs := (List.range n).map Ev.armTimers
    let dispEvs := (List.range n).map fun i =>
      if dispCancel i then Ev.leaseCleanup i else Ev.dispatch i
    (base ++ armEvs ++ dispEvs, if ctxDoneEnd then some rootErr else none)

/-- Oracles for a run of the poll loop: whether the root context is done
at the top of iteration `i`, the queue's reply for iteration `i`, the
`select` outcomes inside `pollMessages`, and the root `ctx.Err()`. -/
structure PollEnv where
  ctxDone : Nat → Bool
  fetch : Nat → Option GoError × List Message
  dispCancel : Nat → Nat → Bool
  ctxDoneEnd : Nat → Bool
  rootErr : GoError

/-- `Consumer.poll` (consumer.go:110-121): loop forever — return
`ctx.Err()` as soon as the root context is observed done at the top of
an iteration, otherwise run `pollMessages`, route its error through
`handleError`, and loop again immediately.  Returns `none` if the fuel
runs out with the loop still running. -/
def pollRun (c : Consumer) (env : PollEnv) :
    Nat → Nat → List Ev × Option GoError
  | 0, _ => ([], none)
  | fuel + 1, iter =>
    if env.ctxDone iter then ([], some env.rootErr)
    else
      ((pollMessagesRun c (env.fetch iter) (env.dispCancel iter)
          (env.ctxDoneEnd iter) env.rootErr).1 ++
        handleErrorEvs c (pollMessagesRun c (env.fetch iter)
          (env.dispCancel iter) (env.ctxDoneEnd iter) env.rootErr).2 ++
        (pollRun c env fuel (iter + 1)).1,
        (pollRun c env fuel (iter + 1)).2)

/-! ## The orchestrator (`consumer.go:88-106`) -/

/-- The capacity of the dispatch channel created by `Consume`:
`make(chan *pollMessage)` (consumer.go:95) — unbuffered. -/
def dispatchChanCapacity : Nat := 0

/-- Events of the `Consume` orchestration itself. -/
inductive CEv where
  /-- `go c.startWorker(...)` (consumer.go:98). -/
  | spawnWorker (i : Nat)
  /-- an event of the poll loop. -/
  | pollEv (e : Ev)
  /-- `close(ch)` (consumer.go:102). -/
  | closeChan
  /-- `wg.Wait()` (consumer.go:104). -/
  | wgWait
deriving DecidableEq, Repr

/-- `Consumer.Consume` (consumer.go:88-106): spawn `numWorkers` workers
sharing the one dispatch channel, run the poll loop to completion, then
close the channel and wait for the workers before returning the poll
loop's result.  If the poll loop is still running (fuel out) nothing
after it happens yet. -/
def consumeRun (c : Consumer) (env : PollEnv) (fuel : Nat) :
    List CEv × Option GoError :=
  match (pollRun c env fuel 0).2 with
  | none =>
    ((List.range c.numWorkers).map CEv.spawnWorker ++
      (pollRun c env fuel 0).1.map CEv.pollEv, none)
  | some e =>
    ((List.range c.numWorkers).map CEv.spawnWorker ++
      (pollRun c env fuel 0).1.map CEv.pollEv ++ [CEv.closeChan, CEv.wgWait],
      some e)

/-! ## The worker pool as a transition system (`consumer.go:94-106,186-198`)

For the backpressure claim the worker pool is modelled as a labelled
transition system.  The dispatch channel is unbuffered
(`make(chan *pollMessage)`), so a send completes exactly when some
worker's receive does: a dispatch is one rendezvous step that moves a
lease straight into a worker.  Each worker then follows the
`startWorker`/`consumeMessage` phases: handling (lease not yet cleaned
up), then acking (cleanup has run, `handleMsg`'s defer), then receiving
again. -/

/-- The phase a worker task is in. -/
inductive WStatus where
  /-- blocked on `<-ch` (consumer.go:189). -/
  | receiving
  /-- inside `h.Handle` for this lease; its cleanup has not run yet. -/
  | handling (lid : Nat)
  /-- after `handleMsg` (cleanup has run), deciding/performing the ack. -/
  | acking (lid : Nat)
  /-- exited: the channel was closed. -/
  | stopped
deriving DecidableEq, Repr

/-- The worker-pool state: one status per worker. -/
abbrev PoolState := List WStatus

/-- Labels of pool transitions. -/
inductive PEv where
  | disp (i lid : Nat)
  | cleaned (i lid : Nat)
  | acked (i lid : Nat)
  | chClosed (i : Nat)
deriving DecidableEq, Repr

/-- One step of the worker pool. -/
inductive PoolStep : PoolState → PEv → PoolState → Prop where
  /-- rendezvous on the unbuffered channel: the poller's send completes
  together with worker `i`'s receive — only a worker blocked in
  `receiving` can take a lease. -/
  | dispatch (s : PoolState) (i lid : Nat) (hi : s[i]? = some .receiving) :
      PoolStep s (.disp i lid) (s.set i (.handling lid))
  /-- `h.Handle` returned; `handleMsg`'s deferred `pm.cleanup()` runs. -/
  | finishHandle (s : PoolState) (i lid : Nat) (hi : s[i]? = some (.handling lid)) :
      PoolStep s (.cleaned i lid) (s.set i (.acking lid))
  /-- the ack decision/call finished; back to the channel receive. -/
  | finishAck (s : PoolState) (i lid : Nat) (hi : s[i]? = some (.acking lid)) :
      PoolStep s (.acked i lid) (s.set i .receiving)
  /-- the channel is closed and drained: the receive fails and the
  worker returns. -/
  | chanClosed (s : PoolState) (i : Nat) (hi : s[i]? = some .receiving) :
      PoolStep s (.chClosed i) (s.set i .stopped)

/-- Reachability from the pool's initial state (`numWorkers` workers all
blocked on the channel). -/
inductive PoolReachable (k : Nat) : PoolState → Prop where
  | init : PoolReachable k (List.replicate k .receiving)
  | step {s t : PoolState} {e : PEv} (hs : PoolReachable k s)
      (hstep : PoolStep s e t) : PoolReachable k t

/-- Whether a worker currently holds a dispatched-but-not-yet-cleaned-up
lease. -/
def WStatus.isHandling : WStatus → Bool
  | .handling _ => true
  | _ => false

/-- The number of leases that have been dispatched but not yet cleaned
up: each such lease lives inside exactly one worker in the `handling`
phase. -/
def uncleanedCount (s : PoolState) : Nat := s.countP WStatus.isHandling

/-- Whether an event is a `queue.AckMessage` call. -/
def isAckEv : Ev → Bool
  | .ackMessage _ _ _ => true
  | _ => false

/-! ## Concrete fixtures used by witnesses and counterexamples -/

/-- A root context with a single caller-side cancellation source. -/
def rootCtx0 : Ctx := Ctx.withCancel Ctx.background (.rootCause 0)

/-- The event assignment in which only the caller's root cancel has
fired. -/
def rootOnlyFired : CancelSrc → Bool := fun s => decide (s = CancelSrc.rootCause 0)

/-- The event assignment in which only lease 0's own cancel has fired. -/
def leaseOnlyFired : CancelSrc → Bool := fun s => decide (s = CancelSrc.leaseCancel 0)

/-- A sample message. -/
def msg0 : Message := ⟨1, [7], "id0", "rh0"⟩

/-- A sample consumer configuration (error callback installed). -/
def consumer0 : Consumer := ⟨true, 2, "q0", 30 * second, 20 * second⟩

/-- A sample lease as received by a worker. -/
def pm0 : PollMsg := ⟨0, leaseCtx 0, msg0⟩

/-- A sample extend-loop oracle: the first two renewal attempts fail,
the third succeeds; the lease context never cancels. -/
def envW : ExtendEnv :=
  ⟨fun i => if i < 2 then some (.backend i) else none, fun _ => false, false⟩

/-! # Claims -/

/-- C1, counterexample.  The claim says every in-flight lease's Handler
context is cancelled whenever the root context given to `Consume` is
cancelled.  In the code (`pollMessages`, consumer.go:135) each lease
context is `context.WithCancel(context.Background())`: cancelling the
root context does not cancel it.  Concretely: with only the root
context's cancel fired, the root context is done, the lease context
handed to the Handler is not done, while the spec's composed context
(`leaseCtxSpec`) would be done. -/
theorem C1_leaseCtx_counterexample :
    Ctx.done rootOnlyFired rootCtx0 = true ∧
    Ctx.done rootOnlyFired (leaseCtx 0) = false ∧
    Ctx.done rootOnlyFired (leaseCtxSpec rootCtx0 0) = true := by
  decide

/-- C1, amended.  The lease context passed to the Handler is derived
from `context.Background()`, so it is done exactly when the lease's own
cancel has fired — which happens when the expiry timer fires or when
`cleanup` runs — and root-context cancellation alone does not cancel
it. -/
theorem C1_leaseCtx_amended (events : CancelSrc → Bool) (i : Nat) (s : PMState) :
    Ctx.done events (leaseCtx i) = events (.leaseCancel i) ∧
    (fireExpiry s).ctxCancelled = true ∧
    (cleanup s).1.ctxCancelled = true := by
  refine ⟨?_, rfl, ?_⟩
  · simp [Ctx.done, leaseCtx, Ctx.withCancel, Ctx.background]
  · simp [cleanup, unsafeCleanupTimers]

/-- C2: `registerTimers` is a no-op when the visibility timeout is
nonpositive or the lease context is already cancelled; otherwise it
stops any existing timer pair and arms the expiry timer at
`0.9 × visibilityTimeout` (action: cancel the lease context) and the
extend timer at `0.5 × visibilityTimeout` (action: run the renewal
attempt); for `visibilityTimeout = 30s` those delays are exactly 27s and
15s. -/
theorem C2_registerTimers (vt : Duration) (s : PMState) :
    (vt ≤ 0 → registerTimers vt s = (s, [])) ∧
    (s.ctxCancelled = true → registerTimers vt s = (s, [])) ∧
    (0 < vt → s.ctxCancelled = false →
      registerTimers vt s =
        ({ ctxCancelled := false,
           expiryTimer := some ⟨expiryDurNs vt, .cancelCtx⟩,
           extendTimer := some ⟨extendDurNs vt, .extendVis⟩ },
          (unsafeCleanupTimers s).2)) ∧
    (fireExpiry s).ctxCancelled = true ∧
    expiryDurNs (30 * second) = 27 * second ∧
    extendDurNs (30 * second) = 15 * second := by
  refine ⟨fun hle => ?_, fun hc => ?_, fun hpos hc => ?_, rfl, by decide, by decide⟩
  · simp [registerTimers, hle]
  · simp only [registerTimers, hc]
    split <;> simp
  · have hn : ¬ vt ≤ 0 := not_le.mpr hpos
    simp [registerTimers, hn, hc, unsafeCleanupTimers]

/-- C2, witness: arming a lease whose expiry timer is already armed, at
`visibilityTimeout = 30s`, stops the old timer and arms the 27s/15s
pair. -/
theorem C2_registerTimers_witness :
    registerTimers (30 * second) ⟨false, some ⟨1, .cancelCtx⟩, none⟩ =
      ({ ctxCancelled := false,
         expiryTimer := some ⟨27 * second, .cancelCtx⟩,
         extendTimer := some ⟨15 * second, .extendVis⟩ }, [TEv.stopExpiry]) := by
  have h := (C2_registerTimers (30 * second)
    ⟨false, some ⟨1, .cancelCtx⟩, none⟩).2.2.1 (by decide) rfl
  rw [h]
  decide

/-- C4: `cleanup` cancels the lease context and disarms both timers, and
it is idempotent: a second call (the mutex serialises concurrent ones)
leaves the state unchanged and performs no further `Stop` on a timer
that was already released — after the first cleanup both timer fields
are nil and the context remains cancelled. -/
theorem C4_cleanup (s : PMState) :
    ((cleanup s).1.ctxCancelled = true ∧ (cleanup s).1.expiryTimer = none ∧
      (cleanup s).1.extendTimer = none) ∧
    cleanup (cleanup s).1 = ((cleanup s).1, []) := by
  simp [cleanup, unsafeCleanupTimers]

/-- C10: the 10-second context for the `AckMessage` call is derived from
the root context passed to `Consume`, not from the lease's context: the
ack event the worker emits carries `ackCtx root t`, whose sources are
the fresh request timeout plus the root's; hence cancelling only the
lease's context (which `cleanup` did just before the ack decision) does
not cancel it, while root-context cancellation does. -/
theorem C10_ackCtx (c : Consumer) (root : Ctx)
    (h : Ctx → Message → HandleResult) (pm : PollMsg) (t : Nat)
    (ackRes : Option GoError) (events : CancelSrc → Bool) (i : Nat)
    (hnotin : CancelSrc.leaseCancel i ∉ root.sources)
    (hAck : shouldAckMessage (h pm.ctx pm.msg) = true) :
    (Ev.ackMessage (ackCtx root t) ⟨c.queueID, pm.msg.receiptHandle⟩
        (10 * second) ∈ (consumeMessageRun c root h pm t ackRes).1) ∧
    (ackCtx root t).sources = CancelSrc.reqTimeout t :: root.sources ∧
    (Ctx.done events root = true → Ctx.done events (ackCtx root t) = true) ∧
    ((∀ src, events src = true → src = CancelSrc.leaseCancel i) →
      Ctx.done events (ackCtx root t) = false) := by
  refine ⟨?_, rfl, ?_, ?_⟩
  · simp [consumeMessageRun, handleMsgRun, ackMessageRun, hAck]
  · intro hroot
    simp only [Ctx.done, ackCtx, Ctx.withTimeout, List.any_cons, Bool.or_eq_true]
    right
    exact hroot
  · intro honly
    simp only [Ctx.done, ackCtx, Ctx.withTimeout, List.any_eq_false]
    intro src hsrc
    rcases List.mem_cons.mp hsrc with hqt | hin
    · subst hqt
      by_contra hne
      have := honly _ (by simpa using hne)
      exact absurd this (by simp)
    · by_contra hne
      have := honly _ (by simpa using hne)
      subst this
      exact hnotin hin

/-- C10, witness: at the concrete fixture, with only the lease's cancel
fired (the state right after cleanup, root still live), the ack event is
present and its context is not done. -/
theorem C10_ackCtx_witness :
    (Ev.ackMessage (ackCtx rootCtx0 0) ⟨"q0", "rh0"⟩ (10 * second) ∈
      (consumeMessageRun consumer0 rootCtx0 (fun _ _ => ⟨true⟩) pm0 0 none).1) ∧
    Ctx.done leaseOnlyFired (ackCtx rootCtx0 0) = false := by
  have h := C10_ackCtx consumer0 rootCtx0 (fun _ _ => ⟨true⟩) pm0 0 none
    leaseOnlyFired 0 (by decide) rfl
  exact ⟨h.1, h.2.2.2 (by intro src hsrc; revert hsrc; cases src <;> simp [leaseOnlyFired])⟩

/-- Every lease a worker receives gets its Handler call: the worker loop
never stops early, whatever the ack results are. -/
theorem handleCall_mem_startWorkerRun (c : Consumer) (root : Ctx)
    (h : Ctx → Message → HandleResult) (ackRes : Nat → Option GoError) :
    ∀ (pms : List PollMsg) (k : Nat), ∀ pm' ∈ pms,
      Ev.handleCall pm'.ctx pm'.msg ∈ startWorkerRun c root h ackRes pms k := by
  intro pms
  induction pms with
  | nil => simp
  | cons pm rest ih =>
    intro k pm' hmem
    simp only [startWorkerRun]
    rcases List.mem_cons.mp hmem with h1 | h2
    · subst h1
      apply List.mem_append_left
      apply List.mem_append_left
      simp only [consumeMessageRun, handleMsgRun]
      split <;> simp
    · exact List.mem_append_right _ (ih (k + 1) pm' h2)

/-- C5: for each lease a worker receives, the Handler is invoked once
with the lease's context and message, then cleanup runs unconditionally
before the ack decision; an `AckMessage` call — on the root-derived
10-second context — is made exactly when the result's `shouldAck` flag
is set, and exactly once even when it errors; the ack error is routed to
the error callback and the worker keeps processing later leases. -/
theorem C5_consumeMessage (c : Consumer) (root : Ctx)
    (h : Ctx → Message → HandleResult) (pm : PollMsg) (t : Nat)
    (ackRes1 : Option GoError) (ackRes : Nat → Option GoError)
    (pms : List PollMsg) (k : Nat) (e : GoError)
    (herr : c.errHandlerPresent = true) :
    (consumeMessageRun c root h pm t ackRes1 =
      ([Ev.handleCall pm.ctx pm.msg, Ev.leaseCleanup pm.leaseId] ++
          (if shouldAckMessage (h pm.ctx pm.msg) then
            [Ev.ackMessage (ackCtx root t) ⟨c.queueID, pm.msg.receiptHandle⟩
              (10 * second)]
          else []),
        if shouldAckMessage (h pm.ctx pm.msg) then ackRes1 else none)) ∧
    ((consumeMessageRun c root h pm t ackRes1).1.countP isAckEv =
      if shouldAckMessage (h pm.ctx pm.msg) then 1 else 0) ∧
    (∀ pm' ∈ pms,
      Ev.handleCall pm'.ctx pm'.msg ∈ startWorkerRun c root h ackRes pms k) ∧
    (shouldAckMessage (h pm.ctx pm.msg) = true → ackRes k = some e →
      Ev.errRoute e ∈ startWorkerRun c root h ackRes (pm :: pms) k) := by
  refine ⟨?_, ?_, handleCall_mem_startWorkerRun c root h ackRes pms k, ?_⟩
  · simp only [consumeMessageRun, handleMsgRun, ackMessageRun]
    split <;> simp_all
  · simp only [consumeMessageRun, handleMsgRun, ackMessageRun]
    split <;> simp_all [isAckEv]
  · intro hAck hres
    simp only [startWorkerRun]
    apply List.mem_append_left
    apply List.mem_append_right
    simp [consumeMessageRun, handleMsgRun, ackMessageRun, hAck, hres,
      handleErrorEvs, herr]

/-- C5, witness: a handler that acks, an ack that errors — the handler
call, the cleanup, exactly one ack call and the routed error are all in
the worker's trace. -/
theorem C5_consumeMessage_witness :
    consumeMessageRun consumer0 rootCtx0 (fun _ _ => ⟨true⟩) pm0 0
        (some (.backend 3)) =
      ([Ev.handleCall pm0.ctx pm0.msg, Ev.leaseCleanup 0,
        Ev.ackMessage (ackCtx rootCtx0 0) ⟨"q0", "rh0"⟩ (10 * second)],
        some (.backend 3)) ∧
    Ev.errRoute (.backend 3) ∈
      startWorkerRun consumer0 rootCtx0 (fun _ _ => ⟨true⟩)
        (fun _ => some (.backend 3)) [pm0] 0 := by
  have h := C5_consumeMessage consumer0 rootCtx0 (fun _ _ => ⟨true⟩) pm0 0
    (some (.backend 3)) (fun _ => some (.backend 3)) [] 0 (.backend 3) rfl
  refine ⟨?_, h.2.2.2 rfl rfl⟩
  rw [h.1]
  decide

/-- `pollMessages` performs no sleep: its events are the fetch and the
per-lease arm/dispatch/cleanup actions. -/
theorem sleep_not_mem_pollMessagesRun (c : Consumer)
    (fetch : Option GoError × List Message) (dc : Nat → Bool) (ce : Bool)
    (re : GoError) (d : Duration) :
    Ev.sleep d ∉ (pollMessagesRun c fetch dc ce re).1 := by
  simp only [pollMessagesRun]
  split
  · simp [getMessagesEv]
  · intro hmem
    rcases List.mem_append.mp hmem with hl | hr
    · rcases List.mem_append.mp hl with h0 | h1
      · simp [getMessagesEv] at h0
      · rcases List.mem_map.mp h1 with ⟨i, _, hEq⟩
        simp at hEq
    · rcases List.mem_map.mp hr with ⟨i, _, hEq⟩
      revert hEq
      split <;> intro hEq <;> simp at hEq

/-- The poll loop performs no sleep at all: there is no inter-poll
delay. -/
theorem sleep_not_mem_pollRun (c : Consumer) (env : PollEnv) :
    ∀ (fuel iter : Nat) (d : Duration),
      Ev.sleep d ∉ (pollRun c env fuel iter).1 := by
  intro fuel
  induction fuel with
  | zero => simp [pollRun]
  | succ n ih =>
    intro iter d hmem
    simp only [pollRun] at hmem
    split at hmem
    · simp at hmem
    · rcases List.mem_append.mp hmem with hl | hr
      · rcases List.mem_append.mp hl with h0 | h1
        · exact sleep_not_mem_pollMessagesRun c _ _ _ _ d h0
        · revert h1
          simp only [handleErrorEvs]
          split
          · split <;> simp
          · simp
      · exact ih (iter + 1) d hr

/-- C9: every fetch requests `numWorkers` messages under a timeout of
`max(30s, waitTime + 1s)`; on a fetch error (or an empty batch) the
iteration produces only the fetch event, the error (if any) is routed to
the error callback, and the loop proceeds directly to the next
iteration — the poll loop never sleeps. -/
theorem C9_getMessages (c : Consumer) (env : PollEnv) (fuel iter : Nat)
    (e : GoError) (msgs : List Message)
    (hfetch : env.fetch iter = (some e, msgs))
    (hctx : env.ctxDone iter = false)
    (herr : c.errHandlerPresent = true) :
    (getMessagesReq c).messageCount = (c.numWorkers : ℤ) ∧
    getMessagesReq c =
      ⟨(c.numWorkers : ℤ), c.queueID, c.visibilityTimeout, c.waitTime⟩ ∧
    fetchTimeout c = max (30 * second) (c.waitTime + second) ∧
    (∀ (err : Option GoError) (msgs2 : List Message),
      err.isSome = true ∨ msgs2 = [] →
        (pollMessagesRun c (err, msgs2) (env.dispCancel iter)
          (env.ctxDoneEnd iter) env.rootErr).1 = [getMessagesEv c] ∧
        (pollMessagesRun c (err, msgs2) (env.dispCancel iter)
          (env.ctxDoneEnd iter) env.rootErr).2 = err) ∧
    ((pollRun c env (fuel + 1) iter).1 =
      [getMessagesEv c] ++ [Ev.errRoute e] ++ (pollRun c env fuel (iter + 1)).1) ∧
    (∀ fuel2 iter2 d, Ev.sleep d ∉ (pollRun c env fuel2 iter2).1) := by
  refine ⟨rfl, rfl, ?_, ?_, ?_, sleep_not_mem_pollRun c env⟩
  · simp only [fetchTimeout, maxDuration]
    by_cases hgt : (30 * second : Duration) > c.waitTime + second
    · rw [if_pos hgt, max_eq_left (le_of_lt hgt)]
    · rw [if_neg hgt, max_eq_right (not_lt.mp hgt)]
  · intro err msgs2 hcase
    simp only [pollMessagesRun]
    rcases hcase with hs | hempty
    · simp [hs]
    · subst hempty
      simp
  · simp only [pollRun, hctx, if_neg Bool.false_ne_true, hfetch]
    simp [pollMessagesRun, handleErrorEvs, herr]

/-- C9, witness: a concrete consumer with `waitTime = 20s` fetches with
a 30s timeout and `messageCount = 2`; an erroring fetch routes the error
and the loop polls again at once. -/
theorem C9_getMessages_witness :
    getMessagesReq consumer0 =
      ⟨2, "q0", 30 * second, 20 * second⟩ ∧
    fetchTimeout consumer0 = 30 * second ∧
    (pollRun consumer0
        ⟨fun _ => false, fun _ => (some (.backend 1), []), fun _ _ => false,
          fun _ => false, .contextCanceled⟩ 1 0).1 =
      [getMessagesEv consumer0, Ev.errRoute (.backend 1)] := by
  have h := C9_getMessages consumer0
    ⟨fun _ => false, fun _ => (some (.backend 1), []), fun _ _ => false,
      fun _ => false, .contextCanceled⟩ 0 0 (.backend 1) [] rfl rfl rfl
  refine ⟨h.2.1, ?_, ?_⟩
  · rw [h.2.2.1]
    decide
  · rw [h.2.2.2.2.1]
    simp [pollRun]

/-- The shape of a successful non-empty `pollMessages` batch: the fetch
event, then all the arm events, then all the dispatch-or-cleanup
events. -/
theorem pollMessagesRun_closed (c : Consumer) (msgs : List Message)
    (dc : Nat → Bool) (ce : Bool) (re : GoError) (hne : msgs ≠ []) :
    (pollMessagesRun c (none, msgs) dc ce re).1 =
      [getMessagesEv c] ++ (List.range msgs.length).map Ev.armTimers ++
        (List.range msgs.length).map (fun i =>
          if dc i then Ev.leaseCleanup i else Ev.dispatch i) := by
  cases msgs with
  | nil => exact absurd rfl hne
  | cons a as => simp [pollMessagesRun]

/-- In a non-empty batch trace, arm events sit strictly before position
`1 + n`. -/
theorem arm_pos_lt (c : Consumer) (msgs : List Message) (dc : Nat → Bool)
    (ce : Bool) (re : GoError) (p i : Nat) (hne : msgs ≠ [])
    (hp : ((pollMessagesRun c (none, msgs) dc ce re).1)[p]? =
      some (Ev.armTimers i)) :
    p < 1 + msgs.length := by
  by_contra hge
  rw [pollMessagesRun_closed c msgs dc ce re hne] at hp
  have hlen : ([getMessagesEv c] ++
      (List.range msgs.length).map Ev.armTimers).length ≤ p := by
    simp
    omega
  rw [List.getElem?_append_right hlen] at hp
  have hmem := List.getElem?_mem hp
  rcases List.mem_map.mp hmem with ⟨j, _, hEq⟩
  revert hEq
  split <;> intro hEq <;> simp at hEq

/-- In a non-empty batch trace, dispatch and cleanup events sit at
position `1 + n` or later. -/
theorem disp_pos_ge (c : Consumer) (msgs : List Message) (dc : Nat → Bool)
    (ce : Bool) (re : GoError) (q j : Nat) (hne : msgs ≠ [])
    (hq : ((pollMessagesRun c (none, msgs) dc ce re).1)[q]? =
        some (Ev.dispatch j) ∨
      ((pollMessagesRun c (none, msgs) dc ce re).1)[q]? =
        some (Ev.leaseCleanup j)) :
    1 + msgs.length ≤ q := by
  by_contra hlt
  push_neg at hlt
  rw [pollMessagesRun_closed c msgs dc ce re hne] at hq
  have hlen : q < ([getMessagesEv c] ++
      (List.range msgs.length).map Ev.armTimers).length := by
    simp
    omega
  rcases hq with hq | hq <;>
    · rw [List.getElem?_append_left hlen] at hq
      have hmem := List.getElem?_mem hq
      rcases List.mem_append.mp hmem with h0 | h1
      · simp [getMessagesEv] at h0
      · rcases List.mem_map.mp h1 with ⟨j2, _, hEq⟩
        simp at hEq

/-- C8: in `pollMessages`, for every message of a successfully fetched
non-empty batch a lease is created and armed before any dispatch is
attempted (every arm event precedes every dispatch/cleanup event), and
then each lease is either sent on the dispatch channel (when its
`select` did not observe root cancellation) or cleaned up by the poller
(when it did) — exactly one of the two. -/
theorem C8_pollMessages (c : Consumer) (msgs : List Message)
    (dc : Nat → Bool) (ce : Bool) (re : GoError) (hne : msgs ≠ []) :
    ((pollMessagesRun c (none, msgs) dc ce re).1 =
      [getMessagesEv c] ++ (List.range msgs.length).map Ev.armTimers ++
        (List.range msgs.length).map (fun i =>
          if dc i then Ev.leaseCleanup i else Ev.dispatch i)) ∧
    (∀ i < msgs.length,
      Ev.armTimers i ∈ (pollMessagesRun c (none, msgs) dc ce re).1 ∧
      (dc i = true →
        Ev.leaseCleanup i ∈ (pollMessagesRun c (none, msgs) dc ce re).1 ∧
        Ev.dispatch i ∉ (pollMessagesRun c (none, msgs) dc ce re).1) ∧
      (dc i = false →
        Ev.dispatch i ∈ (pollMessagesRun c (none, msgs) dc ce re).1 ∧
        Ev.leaseCleanup i ∉ (pollMessagesRun c (none, msgs) dc ce re).1)) ∧
    (∀ (p q i j : Nat),
      ((pollMessagesRun c (none, msgs) dc ce re).1)[p]? =
        some (Ev.armTimers i) →
      (((pollMessagesRun c (none, msgs) dc ce re).1)[q]? =
          some (Ev.dispatch j) ∨
        ((pollMessagesRun c (none, msgs) dc ce re).1)[q]? =
          some (Ev.leaseCleanup j)) →
      p < q) := by
  have hclosed := pollMessagesRun_closed c msgs dc ce re hne
  refine ⟨hclosed, ?_, ?_⟩
  · intro i hi
    rw [hclosed]
    refine ⟨?_, fun hdc => ⟨?_, ?_⟩, fun hdc => ⟨?_, ?_⟩⟩
    · apply List.mem_append_left
      apply List.mem_append_right
      exact List.mem_map.mpr ⟨i, List.mem_range.mpr hi, rfl⟩
    · apply List.mem_append_right
      refine List.mem_map.mpr ⟨i, List.mem_range.mpr hi, ?_⟩
      simp [hdc]
    · intro hmem
      rcases List.mem_append.mp hmem with hl | hr
      · rcases List.mem_append.mp hl with h0 | h1
        · simp [getMessagesEv] at h0
        · rcases List.mem_map.mp h1 with ⟨j2, _, hEq⟩
          simp at hEq
      · rcases List.mem_map.mp hr with ⟨j2, _, hEq⟩
        revert hEq
        split <;> intro hEq
        · simp at hEq
        · simp at hEq
          subst hEq
          simp_all
    · apply List.mem_append_right
      refine List.mem_map.mpr ⟨i, List.mem_range.mpr hi, ?_⟩
      simp [hdc]
    · intro hmem
      rcases List.mem_append.mp hmem with hl | hr
      · rcases List.mem_append.mp hl with h0 | h1
        · simp [getMessagesEv] at h0
        · rcases List.mem_map.mp h1 with ⟨j2, _, hEq⟩
          simp at hEq
      · rcases List.mem_map.mp hr with ⟨j2, _, hEq⟩
        revert hEq
        split <;> intro hEq
        · simp at hEq
          subst hEq
          simp_all
        · simp at hEq
  · intro p q i j hp hq
    have h1 := arm_pos_lt c msgs dc ce re p i hne hp
    have h2 := disp_pos_ge c msgs dc ce re q j hne hq
    omega

/-- C8, witness: a two-message batch where the first lease dispatches
and root cancellation arrives before the second: arm, arm, dispatch,
cleanup — in that order, after the fetch. -/
theorem C8_pollMessages_witness :
    (pollMessagesRun consumer0 (none, [msg0, msg0])
        (fun i => decide (i = 1)) true .contextCanceled).1 =
      [getMessagesEv consumer0, Ev.armTimers 0, Ev.armTimers 1,
        Ev.dispatch 0, Ev.leaseCleanup 1] := by
  have h8 := C8_pollMessages consumer0 [msg0, msg0] (fun i => decide (i = 1))
    true .contextCanceled (List.cons_ne_nil _ _)
  rw [h8.1]
  decide

/-- If the poll loop returned, it returned the root context's error, and
only because the root context was observed cancelled. -/
theorem pollRun_some (c : Consumer) (env : PollEnv) :
    ∀ (fuel iter : Nat) (e : GoError),
      (pollRun c env fuel iter).2 = some e →
      e = env.rootErr ∧ ∃ j, env.ctxDone j = true := by
  intro fuel
  induction fuel with
  | zero => intro iter e h; simp [pollRun] at h
  | succ n ih =>
    intro iter e h
    simp only [pollRun] at h
    by_cases hd : env.ctxDone iter
    · rw [if_pos hd] at h
      exact ⟨(Option.some_inj.mp h).symm, iter, hd⟩
    · rw [if_neg hd] at h
      exact ih (iter + 1) e h

/-- C6: `Consume` spawns `numWorkers` workers sharing the one unbuffered
dispatch channel (capacity 0), blocks until the poll loop returns —
which happens only once the root context is observed cancelled — then
closes the channel and waits for the workers (the close and wait events
follow every poll event), and returns the root context's cancellation
error. -/
theorem C6_consume (c : Consumer) (env : PollEnv) (fuel : Nat) (e : GoError)
    (hres : (consumeRun c env fuel).2 = some e) :
    dispatchChanCapacity = 0 ∧
    (consumeRun c env fuel).1 =
      (List.range c.numWorkers).map CEv.spawnWorker ++
        (pollRun c env fuel 0).1.map CEv.pollEv ++
        [CEv.closeChan, CEv.wgWait] ∧
    ((List.range c.numWorkers).map CEv.spawnWorker).length = c.numWorkers ∧
    (pollRun c env fuel 0).2 = some e ∧
    e = env.rootErr ∧ (∃ j, env.ctxDone j = true) := by
  have hpoll : (pollRun c env fuel 0).2 = some e := by
    revert hres
    simp only [consumeRun]
    cases hp : (pollRun c env fuel 0).2 with
    | none => simp
    | some e2 => simp
  have hmain := pollRun_some c env fuel 0 e hpoll
  refine ⟨rfl, ?_, by simp, hpoll, hmain.1, hmain.2⟩
  simp only [consumeRun, hpoll]

/-- C6, witness: with the root context cancelled from iteration 1 on,
`Consume` returns `context.Canceled` and its trace is: spawn 2 workers,
one poll iteration, close channel, wait. -/
theorem C6_consume_witness :
    (consumeRun consumer0
      ⟨fun i => decide (1 ≤ i), fun _ => (none, []), fun _ _ => false,
        fun _ => false, .contextCanceled⟩ 2).2 = some .contextCanceled ∧
    (consumeRun consumer0
      ⟨fun i => decide (1 ≤ i), fun _ => (none, []), fun _ _ => false,
        fun _ => false, .contextCanceled⟩ 2).1 =
      [CEv.spawnWorker 0, CEv.spawnWorker 1,
        CEv.pollEv (getMessagesEv consumer0), CEv.closeChan, CEv.wgWait] := by
  have h := C6_consume consumer0
    ⟨fun i => decide (1 ≤ i), fun _ => (none, []), fun _ _ => false,
      fun _ => false, .contextCanceled⟩ 2 .contextCanceled (by decide)
  refine ⟨by decide, ?_⟩
  rw [h.2.1]
  decide

/-- Reachable pool states have exactly `numWorkers` workers. -/
theorem poolReachable_length {k : Nat} {s : PoolState}
    (hr : PoolReachable k s) : s.length = k := by
  induction hr with
  | init => simp
  | step hs hstep ih => cases hstep <;> simp [ih]

/-- C7: with `numWorkers = k` and the unbuffered dispatch channel, in
every reachable pool state at most `k` leases are simultaneously in the
dispatched-but-not-cleaned-up state; moreover a dispatch rendezvous can
only target a worker currently blocked in receive — one that holds no
lease — so each worker holds at most one lease and has cleaned it up
before its next receive. -/
theorem C7_backpressure (k : Nat) (s : PoolState) (hr : PoolReachable k s) :
    uncleanedCount s ≤ k ∧ s.length = k ∧
    (∀ (i lid : Nat) (t : PoolState),
      PoolStep s (.disp i lid) t → s[i]? = some .receiving) := by
  have hlen := poolReachable_length hr
  refine ⟨?_, hlen, ?_⟩
  · calc uncleanedCount s ≤ s.length := List.countP_le_length _
      _ = k := hlen
  · intro i lid t hstep
    cases hstep with
    | dispatch _ _ hi => exact hi

/-- C7, witness: two workers, one lease dispatched to worker 0 — one
lease is un-cleaned-up, within the bound 2. -/
theorem C7_backpressure_witness :
    uncleanedCount ((List.replicate 2 WStatus.receiving).set 0
      (.handling 5)) ≤ 2 := by
  exact (C7_backpressure 2 _ (PoolReachable.step PoolReachable.init
    (PoolStep.dispatch _ 0 5 (by decide)))).1

/-- `registerTimers` is the identity on a lease whose context is already
cancelled. -/
theorem registerTimers_ctxCancelled (vt : Duration) (s : PMState)
    (hc : s.ctxCancelled = true) : registerTimers vt s = (s, []) := by
  simp only [registerTimers, hc]
  split <;> simp

/-- `registerTimers` on a live lease with a positive visibility timeout
arms the expiry/extend pair. -/
theorem registerTimers_live (vt : Duration) (s : PMState) (hpos : 0 < vt)
    (hc : s.ctxCancelled = false) :
    (registerTimers vt s).1 =
      ⟨false, some ⟨expiryDurNs vt, .cancelCtx⟩,
        some ⟨extendDurNs vt, .extendVis⟩⟩ := by
  have hn : ¬ vt ≤ 0 := not_le.mpr hpos
  simp [registerTimers, hn, hc, unsafeCleanupTimers]

/-- Closed form of the extend retry loop when, starting from `retries = r`,
the next `n` attempts fail without the context cancelling and attempt
`n` succeeds: each failure is routed and followed by a linearly growing
sleep, and the loop exits successfully. -/
theorem extendLoop_success (c : Consumer) (m : Message) (env : ExtendEnv) :
    ∀ (n fuel r : Nat), n < fuel →
      (∀ i, i < n → (env.visResult (r + i)).isSome = true) →
      env.visResult (r + n) = none →
      (∀ i, i < n → env.ctxDoneAt (r + i + 1) = false) →
      extendLoop c m env fuel r =
        ((List.range n).flatMap (fun i =>
            updateVisibilityEv c m ::
              (handleErrorEvs c (env.visResult (r + i)) ++
                [Ev.sleep (((r + i + 1 : Nat) : ℤ) * second)])) ++
          [updateVisibilityEv c m], .success) := by
  intro n
  induction n with
  | zero =>
    intro fuel r hf _ hsucc _
    cases fuel with
    | zero => omega
    | succ f =>
      rw [Nat.add_zero] at hsucc
      simp [extendLoop, hsucc]
  | succ n ih =>
    intro fuel r hf hfail hsucc hctx
    cases fuel with
    | zero => omega
    | succ f =>
      have h0 : (env.visResult r).isSome = true := by
        have := hfail 0 (by omega)
        simpa using this
      obtain ⟨e, he⟩ := Option.isSome_iff_exists.mp h0
      have hc0 : env.ctxDoneAt (r + 1) = false := by
        have := hctx 0 (by omega)
        simpa using this
      have h1 : ∀ i, i < n → (env.visResult (r + 1 + i)).isSome = true := by
        intro i hi
        have := hfail (i + 1) (by omega)
        rw [show r + (i + 1) = r + 1 + i by omega] at this
        exact this
      have h2 : env.visResult (r + 1 + n) = none := by
        rw [show r + 1 + n = r + (n + 1) by omega]
        exact hsucc
      have h3 : ∀ i, i < n → env.ctxDoneAt (r + 1 + i + 1) = false := by
        intro i hi
        have := hctx (i + 1) (by omega)
        rw [show r + (i + 1) + 1 = r + 1 + i + 1 by omega] at this
        exact this
      have hrec := ih f (r + 1) (by omega) h1 h2 h3
      have hfun : (fun a : Nat => updateVisibilityEv c m ::
          (handleErrorEvs c (env.visResult (r + a.succ)) ++
            [Ev.sleep (((r + a.succ + 1 : Nat) : ℤ) * second)])) =
          (fun i : Nat => updateVisibilityEv c m ::
            (handleErrorEvs c (env.visResult (r + 1 + i)) ++
              [Ev.sleep (((r + 1 + i + 1 : Nat) : ℤ) * second)])) := by
        funext a
        rw [show r + a.succ = r + 1 + a by omega]
      simp only [extendLoop, he, hc0, Bool.false_eq_true, if_false, hrec,
        List.range_succ_eq_map, List.flatMap_cons, List.flatMap_map]
      simp only [Prod.mk.injEq]
      refine ⟨?_, trivial⟩
      simp only [Nat.add_zero, he, hfun, List.cons_append, List.append_assoc,
        List.singleton_append, List.nil_append]

/-- Closed form of the extend retry loop when, starting from
`retries = r`, attempts `0..n` all fail, the context stays live through
the first `n` post-failure selects and is observed done at the select
after failure `n`: the loop exits via cancellation right after routing
the last error, with no further sleep. -/
theorem extendLoop_cancelled (c : Consumer) (m : Message) (env : ExtendEnv) :
    ∀ (n fuel r : Nat), n < fuel →
      (∀ i, i ≤ n → (env.visResult (r + i)).isSome = true) →
      (∀ i, i < n → env.ctxDoneAt (r + i + 1) = false) →
      env.ctxDoneAt (r + n + 1) = true →
      extendLoop c m env fuel r =
        ((List.range n).flatMap (fun i =>
            updateVisibilityEv c m ::
              (handleErrorEvs c (env.visResult (r + i)) ++
                [Ev.sleep (((r + i + 1 : Nat) : ℤ) * second)])) ++
          (updateVisibilityEv c m ::
            handleErrorEvs c (env.visResult (r + n))), .cancelled) := by
  intro n
  induction n with
  | zero =>
    intro fuel r hf hfail _ hdone
    cases fuel with
    | zero => omega
    | succ f =>
      have h0 : (env.visResult r).isSome = true := by
        have := hfail 0 (by omega)
        simpa using this
      obtain ⟨e, he⟩ := Option.isSome_iff_exists.mp h0
      rw [Nat.add_zero] at hdone
      simp [extendLoop, he, hdone]
  | succ n ih =>
    intro fuel r hf hfail hctx hdone
    cases fuel with
    | zero => omega
    | succ f =>
      have h0 : (env.visResult r).isSome = true := by
        have := hfail 0 (by omega)
        simpa using this
      obtain ⟨e, he⟩ := Option.isSome_iff_exists.mp h0
      have hc0 : env.ctxDoneAt (r + 1) = false := by
        have := hctx 0 (by omega)
        simpa using this
      have h1 : ∀ i, i ≤ n → (env.visResult (r + 1 + i)).isSome = true := by
        intro i hi
        have := hfail (i + 1) (by omega)
        rw [show r + (i + 1) = r + 1 + i by omega] at this
        exact this
      have h3 : ∀ i, i < n → env.ctxDoneAt (r + 1 + i + 1) = false := by
        intro i hi
        have := hctx (i + 1) (by omega)
        rw [show r + (i + 1) + 1 = r + 1 + i + 1 by omega] at this
        exact this
      have h4 : env.ctxDoneAt (r + 1 + n + 1) = true := by
        rw [show r + 1 + n + 1 = r + (n + 1) + 1 by omega]
        exact hdone
      have hrec := ih f (r + 1) (by omega) h1 h3 h4
      have hfun : (fun a : Nat => updateVisibilityEv c m ::
          (handleErrorEvs c (env.visResult (r + a.succ)) ++
            [Ev.sleep (((r + a.succ + 1 : Nat) : ℤ) * second)])) =
          (fun i : Nat => updateVisibilityEv c m ::
            (handleErrorEvs c (env.visResult (r + 1 + i)) ++
              [Ev.sleep (((r + 1 + i + 1 : Nat) : ℤ) * second)])) := by
        funext a
        rw [show r + a.succ = r + 1 + a by omega]
      have htail : r + (n + 1) = r + 1 + n := by omega
      simp only [extendLoop, he, hc0, Bool.false_eq_true, if_false, hrec,
        List.range_succ_eq_map, List.flatMap_cons, List.flatMap_map]
      simp only [Prod.mk.injEq]
      refine ⟨?_, trivial⟩
      simp only [Nat.add_zero, he, hfun, htail, List.cons_append,
        List.append_assoc, List.singleton_append, List.nil_append]

/-- Every event of the extend retry loop is an `updateVisibility` call
of the canonical shape, a routed error, or a backoff sleep. -/
theorem extendLoop_ev_shape (c : Consumer) (m : Message) (env : ExtendEnv) :
    ∀ (fuel r : Nat) (ev : Ev), ev ∈ (extendLoop c m env fuel r).1 →
      ev = updateVisibilityEv c m ∨ (∃ e, ev = Ev.errRoute e) ∨
        ∃ d, ev = Ev.sleep d := by
  intro fuel
  induction fuel with
  | zero => intro r ev h; simp [extendLoop] at h
  | succ f ih =>
    intro r ev hmem
    simp only [extendLoop] at hmem
    split at hmem
    · simp at hmem
      exact Or.inl hmem
    · split at hmem
      · rcases List.mem_cons.mp hmem with h1 | h1
        · exact Or.inl h1
        · revert h1
          simp only [handleErrorEvs]
          split
          · intro h1
            simp at h1
            exact Or.inr (Or.inl ⟨_, h1⟩)
          · simp
      · rcases List.mem_cons.mp hmem with h1 | h1
        · exact Or.inl h1
        · rcases List.mem_append.mp h1 with h2 | h2
          · revert h2
            simp only [handleErrorEvs]
            split
            · intro h2
              simp at h2
              exact Or.inr (Or.inl ⟨_, h2⟩)
            · simp
          · rcases List.mem_cons.mp h2 with h3 | h3
            · exact Or.inr (Or.inr ⟨_, h3⟩)
            · exact ih r.succ ev h3

/-- C3: a renewal attempt is a no-op when the lease context is already
cancelled; otherwise it calls `UpdateVisibility` — always with the
consumer's queue ID, the message's receipt handle and the configured
visibility timeout, under a 10-second request timeout — retrying with a
linear `retries × 1s` backoff and routing every failure through the
error callback, until it succeeds (after which the deferred
`registerTimers` re-arms the timer pair, the context still being live)
or the lease context is observed cancelled (after which the loop exits
and the timers are left un-re-armed). -/
theorem C3_renewal (c : Consumer) (m : Message) (env : ExtendEnv)
    (fuel : Nat) (s : PMState) (n : Nat) :
    (s.ctxCancelled = true → extendRun c m env fuel s = ([], some s, .noop)) ∧
    (∀ req tmo, Ev.updateVisibility req tmo ∈ (extendRun c m env fuel s).1 →
      req = ⟨c.queueID, m.receiptHandle, c.visibilityTimeout⟩ ∧
      tmo = 10 * second) ∧
    (s.ctxCancelled = false → n < fuel →
      (∀ i, i < n → (env.visResult i).isSome = true) →
      env.visResult n = none →
      (∀ i, i < n → env.ctxDoneAt (i + 1) = false) →
      extendRun c m env fuel s =
        ((List.range n).flatMap (fun i =>
            updateVisibilityEv c m ::
              (handleErrorEvs c (env.visResult i) ++
                [Ev.sleep (((i + 1 : Nat) : ℤ) * second)])) ++
          [updateVisibilityEv c m],
          some (registerTimers c.visibilityTimeout
            { s with ctxCancelled := env.ctxDoneFinal }).1, .success) ∧
      (env.ctxDoneFinal = false → 0 < c.visibilityTimeout →
        (extendRun c m env fuel s).2.1 =
          some ⟨false, some ⟨expiryDurNs c.visibilityTimeout, .cancelCtx⟩,
            some ⟨extendDurNs c.visibilityTimeout, .extendVis⟩⟩)) ∧
    (s.ctxCancelled = false → n < fuel →
      (∀ i, i ≤ n → (env.visResult i).isSome = true) →
      (∀ i, i < n → env.ctxDoneAt (i + 1) = false) →
      env.ctxDoneAt (n + 1) = true →
      extendRun c m env fuel s =
        ((List.range n).flatMap (fun i =>
            updateVisibilityEv c m ::
              (handleErrorEvs c (env.visResult i) ++
                [Ev.sleep (((i + 1 : Nat) : ℤ) * second)])) ++
          (updateVisibilityEv c m :: handleErrorEvs c (env.visResult n)),
          some { s with ctxCancelled := true }, .cancelled)) := by
  refine ⟨fun hc => ?_, fun req tmo hmem => ?_, fun hc hf hfail hsucc hctx => ?_,
    fun hc hf hfail hctx hdone => ?_⟩
  · rw [extendRun, if_pos hc, registerTimers_ctxCancelled _ _ hc]
  · have hmem2 : Ev.updateVisibility req tmo ∈ (extendLoop c m env fuel 0).1 := by
      revert hmem
      simp only [extendRun]
      split
      · simp
      · split <;> exact id
    rcases extendLoop_ev_shape c m env fuel 0 _ hmem2 with h | ⟨e, h⟩ | ⟨d, h⟩
    · simpa [updateVisibilityEv] using h
    · simp at h
    · simp at h
  · have hrec := extendLoop_success c m env n fuel 0 hf
      (by intro i hi; simpa using hfail i hi) (by simpa using hsucc)
      (by intro i hi; simpa using hctx i hi)
    have hform : extendRun c m env fuel s =
        ((List.range n).flatMap (fun i =>
            updateVisibilityEv c m ::
              (handleErrorEvs c (env.visResult i) ++
                [Ev.sleep (((i + 1 : Nat) : ℤ) * second)])) ++
          [updateVisibilityEv c m],
          some (registerTimers c.visibilityTimeout
            { s with ctxCancelled := env.ctxDoneFinal }).1, .success) := by
      rw [extendRun, if_neg (by simp [hc]), hrec]
      simp only [Nat.zero_add]
    refine ⟨hform, fun hfin hpos => ?_⟩
    rw [hform]
    simp only [Option.some.injEq]
    rw [hfin]
    exact registerTimers_live _ _ hpos rfl
  · have hrec := extendLoop_cancelled c m env n fuel 0 hf
      (by intro i hi; simpa using hfail i hi)
      (by intro i hi; simpa using hctx i hi) (by simpa using hdone)
    rw [extendRun, if_neg (by simp [hc]), hrec]
    simp only [Nat.zero_add]
    rw [registerTimers_ctxCancelled _ _ rfl]

/-- C3, witness: two failing renewal attempts then a success, the
context never cancelling: both errors are routed, the backoffs are 1s
then 2s, the third call succeeds, and the 27s/15s timer pair is
re-armed. -/
theorem C3_renewal_witness :
    extendRun consumer0 msg0 envW 5 ⟨false, none, none⟩ =
      ([updateVisibilityEv consumer0 msg0, Ev.errRoute (.backend 0),
        Ev.sleep second, updateVisibilityEv consumer0 msg0,
        Ev.errRoute (.backend 1), Ev.sleep (2 * second),
        updateVisibilityEv consumer0 msg0],
        some ⟨false, some ⟨27 * second, .cancelCtx⟩,
          some ⟨15 * second, .extendVis⟩⟩, .success) := by
  have h := (C3_renewal consumer0 msg0 envW 5 ⟨false, none, none⟩ 2).2.2.1
    rfl (by omega) (by decide) (by decide) (by decide)
  rw [h.1]
  decide

end QueueEngine
